import Mathlib

/-!
# Verification of the ownership-chain resolution engine of `odm-api`

This file gives a shallow embedding, in Lean 4, of the ownership-chain
resolution engine of the `odm-api` repository and proves (or refutes) the
frozen behavioural claims about it.

Embedded source files:
* `src/netlify/functions/beneficiaires-chaine.js` — the consumer-facing chain
  endpoint: `construireChaineRecursive` (depth-bounded cycle-safe traversal of
  outgoing `beneficiaire_relation` edges), `enrichirAvecMarquesLiees` (the
  endpoint's own, one-hop enrichment with related brands) and the request
  `handler` (merge, dedup by beneficiary id, sort, enrich, respond).
* `src/netlify/functions/utils/marquesTransitives.js` —
  `recupererToutesMarquesTransitives`, the transitive brand resolver that
  follows incoming relations recursively and builds composite
  `"source → intermediary"` labels.
* `src/netlify/functions/utils/serverlessCache.js` — the `ServerlessCache`
  class (`generateKey`, `get`, `set`, smart/periodic cleanup).

Modelling conventions:
* The Supabase record store is modelled by an explicit `Store` value; each
  `.from(...).select(...).eq(...)` call becomes a pure scan of the
  corresponding list.  The single-record beneficiary fetch
  (`.single()`) is fallible: ids listed in `Store.beneficiairesEnEchec`
  make the fetch report an error, which is how the JS code's
  `beneficiaireError` branch (and the `catch` branch, which behaves
  identically: the visited id is released and `[]` is returned) is reached.
  List-returning queries are modelled as total scans.
* JS `null`/missing numeric foreign keys are modelled by the id `0`
  (the JS code tests them for truthiness: `if (!liaison.beneficiaire_id)`),
  and missing strings by `""` (the JS code defaults them with `||`).
* JS objects used as string-keyed dictionaries (`marques_indirectes`) are
  modelled as association lists `List (String × _)` preserving insertion
  order, with assignment overwriting in place, exactly like JS object keys.
* The recursive traversals are total functions.  Each is defined through an
  explicitly fuelled structural recursion (`...Go` with a `Nat` fuel) so that
  concrete executions reduce inside the kernel; the exported function passes
  the exact fuel needed (one more than the number of ids the per-path visited
  set can still absorb), and an unfolding theorem
  (`construireChaineRecursive_eq`, `recupererToutesMarquesTransitives_eq`)
  proves that the exported function satisfies precisely the recurrence of the
  JS source, with the fuel guard never firing.
* `Array.prototype.sort` (a stable sort) is modelled by
  `List.insertionSort`, which is stable; `String.prototype.localeCompare`
  is an unspecified locale collation, so the sort comparator is parameterised
  by an arbitrary `collate : String → String → Int`.
* The per-endpoint response caches and `console.log`/`console.error` calls
  are elided: the caches only replay previously computed values of the very
  functions modelled here, and the claims are about the computed responses.
  Descriptive record fields that no claim mentions (controversies, impact
  texts, timestamps) are likewise elided from the record types.
-/

/-- A brand row (`Marque`): the fields the engine reads are `id` and `nom`. -/
structure Marque where
  id : Nat
  nom : String
  deriving DecidableEq

/-- A beneficiary row (`Beneficiaires`): identity fields only; the
controversy/impact payload is claim-irrelevant and elided. -/
structure Beneficiaire where
  id : Nat
  nom : String
  deriving DecidableEq

/-- A `Marque_beneficiaire` link row: edge brand → beneficiary with its
financial-link description (`lien_financier`). -/
structure Liaison where
  marqueId : Nat
  beneficiaireId : Nat
  lienFinancier : String
  deriving DecidableEq

/-- A `beneficiaire_relation` row: directed edge source → target beneficiary
with a `description_relation`. -/
structure Relation where
  id : Nat
  sourceId : Nat
  cibleId : Nat
  descriptionRelation : String
  deriving DecidableEq

/-- The read-only record store consumed by the engine.
`beneficiairesEnEchec` lists beneficiary ids whose single-record fetch fails
(adapter error): the JS code treats a fetch error and an absent record
identically (`if (beneficiaireError || !beneficiaire) … return []`). -/
structure Store where
  marques : List Marque
  beneficiaires : List Beneficiaire
  beneficiairesEnEchec : List Nat
  liaisons : List Liaison
  relations : List Relation
  deriving DecidableEq

/-- `parseInt(profondeur || '5')`: either an integer or `NaN`. -/
inductive Profondeur where
  | num (d : Int)
  | nan
  deriving DecidableEq

/-- The guard `niveauActuel >= profondeurMax`.  A comparison against `NaN`
is always `false` in JS. -/
def profondeurAtteinte (niveau : Nat) : Profondeur → Bool
  | .num d => decide (d ≤ (niveau : Int))
  | .nan => false

/-- `x || 'defaut'` on JS strings: the empty string is the only falsy one. -/
def lienOuDefaut (s defaut : String) : String :=
  if s = "" then defaut else s

/-- The beneficiary fetch of `construireChaineRecursive`
(`.from('Beneficiaires').select(…).eq('id', bId).single()`): `none` when the
adapter reports an error or the record is absent. -/
def fetchBeneficiaire (store : Store) (bId : Nat) : Option Beneficiaire :=
  if bId ∈ store.beneficiairesEnEchec then none
  else store.beneficiaires.find? (fun b => b.id == bId)

/-- `.from('beneficiaire_relation').select(…).eq('beneficiaire_source_id', bId)`. -/
def relationsSortantes (store : Store) (bId : Nat) : List Relation :=
  store.relations.filter (fun r => r.sourceId == bId)

/-- `.from('beneficiaire_relation').select(…).eq('beneficiaire_cible_id', bId)`. -/
def relationsEntrantes (store : Store) (bId : Nat) : List Relation :=
  store.relations.filter (fun r => r.cibleId == bId)

/-- `.from('Marque_beneficiaire').select('Marque!marque_id (id, nom)')
.eq('beneficiaire_id', bId)`: the brands linked to a beneficiary (inner join
on `Marque`). -/
def marquesDuBeneficiaire (store : Store) (bId : Nat) : List Marque :=
  (store.liaisons.filter (fun li => li.beneficiaireId == bId)).filterMap
    (fun li => store.marques.find? (fun m => m.id == li.marqueId))

/-- `.from('Marque_beneficiaire').select(…).eq('marque_id', marqueId)`. -/
def liaisonsDeMarque (store : Store) (marqueId : Nat) : List Liaison :=
  store.liaisons.filter (fun li => li.marqueId == marqueId)

/-- The name of a beneficiary as delivered by the embedded-resource join
`beneficiaire_source:Beneficiaires!…`; a dangling reference (impossible under
the store's foreign-key constraint) renders as the empty string. -/
def nomBeneficiaire (store : Store) (bId : Nat) : String :=
  ((store.beneficiaires.find? (fun b => b.id == bId)).map Beneficiaire.nom).getD ""

/-- A chain node as built by `construireChaineRecursive` and enriched by
`enrichirAvecMarquesLiees`. -/
structure ChainNode where
  beneficiaire : Beneficiaire
  niveau : Nat
  relationsSuivantes : List Relation
  lienFinancier : String
  marques_directes : List Marque
  marques_indirectes : List (String × List Marque)
  deriving DecidableEq

instance : Inhabited ChainNode :=
  ⟨⟨⟨0, ""⟩, 0, [], "", [], []⟩⟩

/-- The node literal built at lines 228–243 of `beneficiaires-chaine.js`
(`lien_financier: lienFinancierParent || 'Lien financier non défini'`;
brand lists are filled later by the enrichment pass). -/
def mkNode (b : Beneficiaire) (niveau : Nat) (rels : List Relation)
    (lien : String) : ChainNode :=
  { beneficiaire := b
    niveau := niveau
    relationsSuivantes := rels
    lienFinancier := lienOuDefaut lien "Lien financier non défini"
    marques_directes := []
    marques_indirectes := [] }

/-- The ids over which a traversal's per-path visited set can grow: every
beneficiary id present in the store and every relation target.  Each
recursive call of the chain builder adds one such id to its visited set,
which bounds the recursion. -/
def univers (store : Store) : List Nat :=
  (store.beneficiaires.map Beneficiaire.id ++
    store.relations.map Relation.cibleId).dedup

/-- How many ids of `univers store` a visited set can still absorb: the
termination measure of the chain builder. -/
def mesure (store : Store) (visited : List Nat) : Nat :=
  ((univers store).filter (fun x => decide (x ∉ visited))).length

/-- Fuelled body of `construireChaineRecursive`
(`beneficiaires-chaine.js`, lines 169–269).  The fuel only makes the
recursion structural; `construireChaineRecursive_eq` proves that at the fuel
used by the exported wrapper the zero-fuel branch is never taken and the JS
recurrence holds exactly.  The per-path visited set is `visited`; the JS
`visitedIds.add`/`new Set(visitedIds)`-per-branch/`visitedIds.delete`
discipline is equivalent to passing `bId :: visited` to each child, since
every branch receives its own copy and the final `delete` only undoes the
caller-local `add`. -/
def construireChaineGo (store : Store) :
    Nat → Nat → Nat → List Nat → Profondeur → String → List ChainNode
  | 0, _, _, _, _, _ => []
  | fuel + 1, bId, niveauActuel, visited, profondeurMax, lienFinancierParent =>
    if profondeurAtteinte niveauActuel profondeurMax = true ∨ bId ∈ visited then []
    else
      match fetchBeneficiaire store bId with
      | none => []
      | some beneficiaire =>
        let relationsSuivantes := relationsSortantes store bId
        mkNode beneficiaire niveauActuel relationsSuivantes lienFinancierParent ::
          relationsSuivantes.flatMap (fun relation =>
            if relation.cibleId ≠ 0 ∧ relation.cibleId ∉ bId :: visited then
              construireChaineGo store fuel relation.cibleId (niveauActuel + 1)
                (bId :: visited) profondeurMax
                (lienOuDefaut relation.descriptionRelation "Participation financière")
            else [])

/-- `construireChaineRecursive(beneficiaireId, niveauActuel, visitedIds,
profondeurMax, lienFinancierParent)` of `beneficiaires-chaine.js`. -/
def construireChaineRecursive (store : Store) (bId niveauActuel : Nat)
    (visited : List Nat) (profondeurMax : Profondeur)
    (lienFinancierParent : String) : List ChainNode :=
  construireChaineGo store (mesure store visited + 1) bId niveauActuel visited
    profondeurMax lienFinancierParent

/-- The duplicate-removal idiom used on chains and brand groups
(`array.filter((x, index, array) => array.findIndex(y => f y == f x) === index)`):
keep an element iff it is the first of the array carrying its key. -/
def dedupBy {α : Type} [DecidableEq α] (f : α → Nat) (l : List α) : List α :=
  (l.enum.filter (fun p => l.findIdx (fun x => f x == f p.2) == p.1)).map Prod.snd

/-- `beneficiaires-chaine.js` lines 366–368: drop duplicate chain nodes by
beneficiary id, keeping the first occurrence. -/
def dedupById (l : List ChainNode) : List ChainNode :=
  dedupBy (fun n => n.beneficiaire.id) l

/-- `marquesTransitives.js` lines 101–105: drop duplicate brands in one
label group, keeping the first occurrence of each brand id. -/
def dedupMarques (l : List Marque) : List Marque :=
  dedupBy Marque.id l

/-- The sort comparator of `beneficiaires-chaine.js` lines 371–374, as the
"should come weakly before" relation of a stable sort: level ascending, ties
broken by `localeCompare` on the beneficiary names, where
`collate` is the (locale-dependent) collation. -/
def nodeLe (collate : String → String → Int) (a b : ChainNode) : Bool :=
  if a.niveau = b.niveau then
    decide (collate a.beneficiaire.nom b.beneficiaire.nom ≤ 0)
  else decide (a.niveau < b.niveau)

/-- `nodeLe` as a decidable relation, for `List.insertionSort` (the model of
the stable `Array.prototype.sort`). -/
def nodeRel (collate : String → String → Int) (a b : ChainNode) : Prop :=
  nodeLe collate a b = true

instance (collate : String → String → Int) : DecidableRel (nodeRel collate) :=
  fun a b => instDecidableEqBool (nodeLe collate a b) true

/-- JS object assignment `obj[k] = v` on an insertion-ordered dictionary:
overwrite in place if the key exists, else append. -/
def assocSet (l : List (String × List Marque)) (k : String) (v : List Marque) :
    List (String × List Marque) :=
  if l.any (fun kv => kv.1 == k) then
    l.map (fun kv => if kv.1 == k then (kv.1, v) else kv)
  else l ++ [(k, v)]

/-- `if (!obj[k]) obj[k] = []; obj[k].push(...v)`: append to the group of key
`k`, creating it at the end if absent. -/
def assocAppend (l : List (String × List Marque)) (k : String) (v : List Marque) :
    List (String × List Marque) :=
  if l.any (fun kv => kv.1 == k) then
    l.map (fun kv => if kv.1 == k then (kv.1, kv.2 ++ v) else kv)
  else l ++ [(k, v)]

/-- The one-hop `marques_indirectes` computation of the chain endpoint's own
enrichment pass (`beneficiaires-chaine.js` lines 76–127): for each incoming
relation of `bId`, fetch the source beneficiary's direct brands, exclude the
requesting brand, and record the group under the source's name alone. -/
def marquesIndirectesUnSaut (store : Store) (bId marqueExclueId : Nat) :
    List (String × List Marque) :=
  (relationsEntrantes store bId).foldl
    (fun acc relation =>
      let marquesIntermediaires := marquesDuBeneficiaire store relation.sourceId
      if marquesIntermediaires.isEmpty then acc
      else
        let nomSource := nomBeneficiaire store relation.sourceId
        let marquesFiltered :=
          marquesIntermediaires.filter (fun m => m.id ≠ marqueExclueId)
        if marquesFiltered.isEmpty then acc
        else assocSet acc nomSource marquesFiltered)
    []

/-- The enrichment of one chain node by `enrichirAvecMarquesLiees`
(`beneficiaires-chaine.js` lines 42–166): direct brands of the node's
beneficiary minus the requesting brand, plus the one-hop indirect groups.
The JS builds an intermediate `Map` keyed by beneficiary id and then maps
the chain over it; since the computed value only depends on the node's
beneficiary id, this per-node form is equivalent. -/
def enrichirNode (store : Store) (marqueExclueId : Nat) (node : ChainNode) :
    ChainNode :=
  let toutesMarques := marquesDuBeneficiaire store node.beneficiaire.id
  { node with
      marques_directes := toutesMarques.filter (fun m => m.id ≠ marqueExclueId)
      marques_indirectes :=
        marquesIndirectesUnSaut store node.beneficiaire.id marqueExclueId }

/-- `enrichirAvecMarquesLiees(chaineNodes, marqueId)` of
`beneficiaires-chaine.js`. -/
def enrichirAvecMarquesLiees (store : Store) (chaineNodes : List ChainNode)
    (marqueId : Nat) : List ChainNode :=
  chaineNodes.map (enrichirNode store marqueId)

/-- The merged (pre-deduplication) chain of the handler
(`beneficiaires-chaine.js` lines 348–363): one depth-0 traversal per
`Marque_beneficiaire` link of the brand, results concatenated in link order. -/
def chaineFusionnee (store : Store) (marqueId : Nat) (profondeurMax : Profondeur) :
    List ChainNode :=
  (liaisonsDeMarque store marqueId).flatMap (fun liaison =>
    if liaison.beneficiaireId ≠ 0 then
      construireChaineRecursive store liaison.beneficiaireId 0 []
        profondeurMax (lienOuDefaut liaison.lienFinancier "Lien financier direct")
    else [])

/-- Lines 366–368 of the handler: the merged chain with duplicate beneficiary
ids removed (first occurrence kept). -/
def chaineUnique (store : Store) (marqueId : Nat) (profondeurMax : Profondeur) :
    List ChainNode :=
  dedupById (chaineFusionnee store marqueId profondeurMax)

/-- The response body `{ marque_nom, marque_id, chaine, profondeur_max }`. -/
structure Resultat where
  marque_nom : String
  marque_id : Nat
  chaine : List ChainNode
  profondeur_max : Nat
  deriving DecidableEq

/-- The handler's outcome: a 200 response with a body, or the 404
`'Marque non trouvée'` error. -/
inductive Reponse where
  | ok (resultat : Resultat)
  | notFound
  deriving DecidableEq

/-- The chain carried by a response (empty for an error response). -/
def Reponse.chaineDe : Reponse → List ChainNode
  | .ok r => r.chaine
  | .notFound => []

/-- The cache-miss computation of the chain endpoint `handler`
(`beneficiaires-chaine.js` lines 271–403): look the brand up (404 if absent),
fetch its links (no links: empty chain and `profondeur_max: 0`), build and
merge the per-link chains, deduplicate by beneficiary id, sort by
(level, name) with the stable sort, enrich every node, and report the
maximum level reached.  `collate` abstracts `localeCompare`. -/
def chaineHandler (store : Store) (collate : String → String → Int)
    (marqueId : Nat) (profondeurMax : Profondeur) : Reponse :=
  match store.marques.find? (fun m => m.id == marqueId) with
  | none => .notFound
  | some marque =>
    if (liaisonsDeMarque store marqueId).isEmpty then
      .ok { marque_nom := marque.nom, marque_id := marque.id,
            chaine := [], profondeur_max := 0 }
    else
      let chaineEnrichie :=
        enrichirAvecMarquesLiees store
          (List.insertionSort (nodeRel collate)
            (chaineUnique store marqueId profondeurMax))
          marque.id
      .ok { marque_nom := marque.nom, marque_id := marque.id,
            chaine := chaineEnrichie,
            profondeur_max :=
              if chaineEnrichie.length > 0 then
                (chaineEnrichie.map (fun n => n.niveau)).foldl Nat.max 0
              else 0 }

/-- The result record of the transitive brand resolver
(`marquesTransitives.js`): direct brands plus indirect brands grouped by
intermediary-path label. -/
structure MarquesTransitives where
  marquesDirectes : List Marque
  marquesIndirectes : List (String × List Marque)
  deriving DecidableEq

/-- Fuelled body of `recupererToutesMarquesTransitives`
(`marquesTransitives.js` lines 21–127).  As for the chain builder, the fuel
only makes the recursion structural and never runs out at the fuel chosen by
the exported wrapper (`recupererToutesMarquesTransitives_eq`).  The
module-local memoization cache is elided: it replays previous results of
this same computation.  The JS `visited.add` / copy-per-branch /
`finally { visited.delete }` discipline is again equivalent to passing
`bId :: visited` to each recursive call. -/
def recupererMarquesTransitivesGo (store : Store) :
    Nat → Nat → Nat → List Nat → Nat → MarquesTransitives
  | 0, _, _, _, _ => { marquesDirectes := [], marquesIndirectes := [] }
  | fuel + 1, bId, marqueActuelleId, visited, profondeurMax =>
    if bId ∈ visited ∨ profondeurMax ≤ visited.length then
      { marquesDirectes := [], marquesIndirectes := [] }
    else
      let marquesDirectes :=
        (marquesDuBeneficiaire store bId).filter (fun m => m.id ≠ marqueActuelleId)
      let rels := relationsEntrantes store bId
      let marquesIndirectes :=
        rels.foldl
          (fun acc relation =>
            if relation.sourceId = 0 ∨ relation.sourceId ∈ bId :: visited then acc
            else
              let marquesSource :=
                recupererMarquesTransitivesGo store fuel relation.sourceId
                  marqueActuelleId (bId :: visited) profondeurMax
              let nomSource := nomBeneficiaire store relation.sourceId
              let acc1 :=
                if marquesSource.marquesDirectes.isEmpty then acc
                else assocAppend acc nomSource marquesSource.marquesDirectes
              marquesSource.marquesIndirectes.foldl
                (fun acc2 kv =>
                  if kv.2.isEmpty then acc2
                  else assocSet acc2 (nomSource ++ " → " ++ kv.1) kv.2)
                acc1)
          []
      { marquesDirectes := marquesDirectes
        marquesIndirectes :=
          if rels.isEmpty then marquesIndirectes
          else marquesIndirectes.map (fun kv => (kv.1, dedupMarques kv.2)) }

/-- `recupererToutesMarquesTransitives(supabase, beneficiaireId,
marqueActuelleId, visited, profondeurMax)` of `marquesTransitives.js`:
the transitive brand resolver (memoization cache bypassed). -/
def recupererToutesMarquesTransitives (store : Store) (bId marqueActuelleId : Nat)
    (visited : List Nat) (profondeurMax : Nat) : MarquesTransitives :=
  recupererMarquesTransitivesGo store (profondeurMax + 1 - visited.length) bId
    marqueActuelleId visited profondeurMax

/-- `cleanupInterval` of `ServerlessCache` (10 minutes, in ms). -/
def cleanupInterval : Nat := 600000

/-- The `UNIFIED_TTL` table of `serverlessCache.js` (milliseconds). -/
def ttlTable : List (String × Nat) :=
  [("suggestions", 300000), ("marques_search", 600000), ("marques_all", 1200000),
   ("version", 300000), ("health", 120000), ("updates", 600000),
   ("full", 1800000), ("beneficiaires_chaine", 900000), ("evenements", 900000),
   ("categories", 3600000), ("secteurs", 3600000), ("marques_stats", 1800000)]

/-- `UNIFIED_TTL[endpoint] || UNIFIED_TTL.marques_all` (every table entry is
nonzero, so `||` is exactly a lookup with default). -/
def ttlFor (endpoint : String) : Nat :=
  ((ttlTable.find? (fun kv => kv.1 == endpoint)).map Prod.snd).getD 1200000

/-- The `sizeConfig` lookup of `getMaxSizeForFunction`. -/
def getMaxSizeForFunction (functionName : String) : Nat :=
  (((([("suggestions", 200), ("marques", 100), ("beneficiaires_chaine", 50),
       ("evenements", 30), ("categories", 10), ("secteurs", 10)] :
      List (String × Nat)).find? (fun kv => kv.1 == functionName))).map
    Prod.snd).getD 50

/-- One stored cache value (`{ data, timestamp, endpoint, params,
accessCount }`). -/
structure CacheEntry (α : Type) where
  data : α
  timestamp : Nat
  endpoint : String
  params : List (String × String)
  accessCount : Nat
  deriving DecidableEq

/-- The `ServerlessCache` instance state.  The JS `Map` becomes an
insertion-ordered association list. -/
structure ServerlessCache (α : Type) where
  functionName : String
  cache : List (String × CacheEntry α)
  hitCount : Nat
  missCount : Nat
  lastCleanup : Nat
  maxSize : Nat
  deriving DecidableEq

/-- The `ServerlessCache` constructor (`lastCleanup = Date.now()`). -/
def createServerlessCache (α : Type) (functionName : String) (now : Nat) :
    ServerlessCache α :=
  { functionName := functionName, cache := [], hitCount := 0, missCount := 0,
    lastCleanup := now, maxSize := getMaxSizeForFunction functionName }

/-- Lexicographic strict order on character lists by code point (the JS
default `Array.prototype.sort` compares strings by code unit, which agrees
with code-point order on the basic multilingual plane).  Defined
structurally so that concrete sorts reduce inside the kernel. -/
def chaineLt : List Char → List Char → Bool
  | [], [] => false
  | [], _ :: _ => true
  | _ :: _, [] => false
  | c :: cs, d :: ds =>
    if c.toNat < d.toNat then true
    else if d.toNat < c.toNat then false
    else chaineLt cs ds

/-- "Weakly before" on strings under `chaineLt`. -/
def strLeB (a b : String) : Bool := !(chaineLt b.data a.data)

/-- `strLeB` as a decidable relation (for `List.insertionSort`). -/
def cleLe (a b : String) : Prop := strLeB a b = true

instance : DecidableRel cleLe := fun a b => instDecidableEqBool (strLeB a b) true


/-- `params[key]` for a key of the object (JS object keys are unique; a key
not present — unreachable for keys enumerated from the object — renders as
the empty string). -/
def paramValeur (params : List (String × String)) (k : String) : String :=
  ((params.find? (fun kv => kv.1 == k)).map Prod.snd).getD ""

/-- `generateKey(endpoint, params)`: keys of `params` sorted
(`Object.keys(params).sort()`, modelled with the stable
`List.insertionSort` under the string order), each rendered as
`key:value`, joined with `|`, and appended to the endpoint after `::`
when nonempty. -/
def generateKey (endpoint : String) (params : List (String × String)) : String :=
  let sortedParams :=
    String.intercalate "|"
      ((List.insertionSort cleLe (params.map Prod.fst)).map
        (fun k => k ++ ":" ++ paramValeur params k))
  if sortedParams = "" then endpoint else endpoint ++ "::" ++ sortedParams

/-- `Map.prototype.set`: overwrite in place if the key exists, else append. -/
def mapSet {α : Type} (cache : List (String × CacheEntry α)) (k : String)
    (e : CacheEntry α) : List (String × CacheEntry α) :=
  if cache.any (fun kv => kv.1 == k) then
    cache.map (fun kv => if kv.1 == k then (kv.1, e) else kv)
  else cache ++ [(k, e)]

/-- `Map.prototype.delete` by key. -/
def mapDelete {α : Type} (cache : List (String × CacheEntry α)) (k : String) :
    List (String × CacheEntry α) :=
  cache.filter (fun kv => ¬(kv.1 == k))

/-- The `performSmartCleanup` comparator (expired entries first, then by
ascending `accessCount`), as the "weakly before" relation of the stable
sort; expiry is judged with each entry's own stored `endpoint`. -/
def cleanupLe {α : Type} (now : Nat) (a b : String × CacheEntry α) : Prop :=
  (let expiredA := decide (ttlFor a.2.endpoint < now - a.2.timestamp)
   let expiredB := decide (ttlFor b.2.endpoint < now - b.2.timestamp)
   if expiredA && !expiredB then true
   else if !expiredA && expiredB then false
   else decide (a.2.accessCount ≤ b.2.accessCount)) = true

instance {α : Type} (now : Nat) : DecidableRel (@cleanupLe α now) :=
  fun x y => instDecidableEqBool
    (let expiredA := decide (ttlFor x.2.endpoint < now - x.2.timestamp)
     let expiredB := decide (ttlFor y.2.endpoint < now - y.2.timestamp)
     if expiredA && !expiredB then true
     else if !expiredA && expiredB then false
     else decide (x.2.accessCount ≤ y.2.accessCount)) true

/-- `performSmartCleanup`: sort the entries (expired first, least-accessed
first) and delete the first `floor(maxSize / 2)` of them. -/
def performSmartCleanup {α : Type} (c : ServerlessCache α) (now : Nat) :
    ServerlessCache α :=
  let sorted := List.insertionSort (cleanupLe now) c.cache
  let cles := (sorted.take (c.maxSize / 2)).map Prod.fst
  { c with cache := c.cache.filter (fun kv => ¬ cles.contains kv.1) }

/-- `performCleanupIfNeeded`: at most once per `cleanupInterval`, drop every
expired entry (each judged with its own stored `endpoint`). -/
def performCleanupIfNeeded {α : Type} (c : ServerlessCache α) (now : Nat) :
    ServerlessCache α :=
  if now - c.lastCleanup < cleanupInterval then c
  else
    { c with
        cache := c.cache.filter
          (fun kv => ¬(ttlFor kv.2.endpoint < now - kv.2.timestamp))
        lastCleanup := now }

/-- `ServerlessCache.get(endpoint, params)` at time `now`: returns the value
(or `none`) together with the updated cache state (counter bumps, expired
entry eviction).  The TTL used is the one of the `endpoint` argument. -/
def ServerlessCache.get {α : Type} (c : ServerlessCache α) (endpoint : String)
    (params : List (String × String)) (now : Nat) :
    Option α × ServerlessCache α :=
  let key := generateKey endpoint params
  match c.cache.find? (fun kv => kv.1 == key) with
  | none => (none, { c with missCount := c.missCount + 1 })
  | some kv =>
    if ttlFor endpoint < now - kv.2.timestamp then
      (none, { c with cache := mapDelete c.cache key,
                      missCount := c.missCount + 1 })
    else (some kv.2.data, { c with hitCount := c.hitCount + 1 })

/-- `ServerlessCache.set(endpoint, data, params)` at time `now`: preventive
smart cleanup when the size ceiling is reached, insertion of the fresh
entry, then the periodic expired-entry cleanup. -/
def ServerlessCache.set {α : Type} (c : ServerlessCache α) (endpoint : String)
    (data : α) (params : List (String × String)) (now : Nat) :
    ServerlessCache α :=
  let key := generateKey endpoint params
  let c1 := if c.maxSize ≤ c.cache.length then performSmartCleanup c now else c
  performCleanupIfNeeded
    { c1 with
        cache := mapSet c1.cache key
          { data := data, timestamp := now, endpoint := endpoint,
            params := params, accessCount := 1 } }
    now

/-- A concrete total collation standing in for `localeCompare` in witnesses:
the sign of the string comparison. -/
def collateStd (a b : String) : Int :=
  if a = b then 0 else if chaineLt a.data b.data then -1 else 1

/-- The node of a chain carrying a given beneficiary id (default node when
absent). -/
def nodeDansChaine (l : List ChainNode) (bId : Nat) : ChainNode :=
  (l.find? (fun n => n.beneficiaire.id == bId)).getD default

/-- Concrete store with a two-cycle `A → B → A` between beneficiaries `1`
and `2`, brand `1` linked to `A`. -/
def exStoreCycle : Store :=
  { marques := [⟨1, "M"⟩]
    beneficiaires := [⟨1, "A"⟩, ⟨2, "B"⟩]
    beneficiairesEnEchec := []
    liaisons := [⟨1, 1, "lien direct"⟩]
    relations := [⟨1, 1, 2, "A participe dans B"⟩, ⟨2, 2, 1, "B participe dans A"⟩] }

/-- Concrete store realising the spec's running example: brand `Maybelline`
(1) and `Garnier` (2) linked to `LOreal` (10), `KitKat` (3) linked to
`Nestle` (11), relations `LOreal → Nestle → BlackRock` (12). -/
def exStoreSpec : Store :=
  { marques := [⟨1, "Maybelline"⟩, ⟨2, "Garnier"⟩, ⟨3, "KitKat"⟩]
    beneficiaires := [⟨10, "LOreal"⟩, ⟨11, "Nestle"⟩, ⟨12, "BlackRock"⟩]
    beneficiairesEnEchec := []
    liaisons := [⟨1, 10, "marque du groupe"⟩, ⟨2, 10, "marque du groupe"⟩,
                 ⟨3, 11, "marque du groupe"⟩]
    relations := [⟨100, 10, 11, "Nestle detient 23 pour cent de LOreal"⟩,
                  ⟨101, 11, 12, "BlackRock investit dans Nestle"⟩] }

/-- Concrete store where beneficiary `3` is reachable from the direct
beneficiary `1` both through `2` (discovered first, at level 2) and
directly (discovered later, at level 1). -/
def exStoreDiamant : Store :=
  { marques := [⟨1, "M"⟩]
    beneficiaires := [⟨1, "A"⟩, ⟨2, "B"⟩, ⟨3, "X"⟩]
    beneficiairesEnEchec := []
    liaisons := [⟨1, 1, "lien direct"⟩]
    relations := [⟨1, 1, 2, "A vers B"⟩, ⟨2, 2, 3, "B vers X"⟩,
                  ⟨3, 1, 3, "A vers X"⟩] }

/-- Concrete store with one brand linked to one beneficiary and no
relations. -/
def exStoreSimple : Store :=
  { marques := [⟨1, "M"⟩]
    beneficiaires := [⟨1, "A"⟩]
    beneficiairesEnEchec := []
    liaisons := [⟨1, 1, "lien direct"⟩]
    relations := [] }

/-- Concrete store where the fetch of beneficiary `1` fails while
beneficiary `2`, linked to the same brand, is fine. -/
def exStoreEchec : Store :=
  { marques := [⟨1, "M"⟩]
    beneficiaires := [⟨1, "A"⟩, ⟨2, "B"⟩]
    beneficiairesEnEchec := [1]
    liaisons := [⟨1, 1, "lien A"⟩, ⟨1, 2, "lien B"⟩]
    relations := [] }

/-- Concrete store whose brand `1` has no beneficiary links. -/
def exStoreSansLiaison : Store :=
  { marques := [⟨1, "M"⟩]
    beneficiaires := [⟨1, "A"⟩]
    beneficiairesEnEchec := []
    liaisons := []
    relations := [] }

example : (chaineHandler exStoreCycle collateStd 1 (.num 2)).chaineDe ≠ [] := by decide
example :
    ((chaineHandler exStoreCycle collateStd 1 (.num 2)).chaineDe.map
      (fun n => n.niveau)) = [0, 1] := by decide



/-! ## General-purpose lemmas -/

/-- A `foldl` whose step preserves an invariant preserves it globally. -/
theorem foldl_preserve {α β : Type} {P : β → Prop} {step : β → α → β}
    (hstep : ∀ acc x, P acc → P (step acc x)) :
    ∀ (l : List α) (acc : β), P acc → P (l.foldl step acc)
  | [], _, h => h
  | x :: xs, acc, h => foldl_preserve hstep xs (step acc x) (hstep acc x h)

/-- `flatMap` only depends on the values of the function on the list. -/
theorem flatMap_congr {α β : Type} {l : List α} {f g : α → List β}
    (h : ∀ x ∈ l, f x = g x) : l.flatMap f = l.flatMap g := by
  induction l with
  | nil => rfl
  | cons x xs ih =>
    simp only [List.flatMap_cons]
    rw [h x (List.mem_cons_self x xs), ih (fun y hy => h y (List.mem_cons_of_mem x hy))]

/-- Extending the excluded set by a present, not-yet-excluded element shrinks
the filtered length by exactly one (for a duplicate-free base list). -/
theorem length_filter_not_mem_cons {U : List Nat} (hU : U.Nodup) (b : Nat)
    (v : List Nat) (hb : b ∈ U) (hnv : b ∉ v) :
    (U.filter (fun x => decide (x ∉ b :: v))).length + 1 =
      (U.filter (fun x => decide (x ∉ v))).length := by
  have hsplit : (fun x => decide (x ∉ b :: v)) =
      (fun x => (x != b) && decide (x ∉ v)) := by
    funext x
    by_cases hxb : x = b
    · subst hxb; simp
    · by_cases hxv : x ∈ v <;> simp [List.mem_cons, hxb, hxv]
  have hcomm : U.filter (fun x => (x != b) && decide (x ∉ v)) =
      (U.filter (fun x => decide (x ∉ v))).filter (fun x => x != b) := by
    rw [List.filter_filter]
  rw [hsplit, hcomm]
  have hLnd : (U.filter (fun x => decide (x ∉ v))).Nodup := hU.filter _
  have hbL : b ∈ U.filter (fun x => decide (x ∉ v)) :=
    List.mem_filter.mpr ⟨hb, by simpa using hnv⟩
  have herase := hLnd.erase_eq_filter b
  rw [← herase, List.length_erase_of_mem hbL]
  have hpos : 0 < (U.filter (fun x => decide (x ∉ v))).length :=
    List.length_pos.mpr (List.ne_nil_of_mem hbL)
  omega

/-- A successful fetch pins the id inside `univers`. -/
theorem fetch_mem_univers {store : Store} {bId : Nat} {b : Beneficiaire}
    (h : fetchBeneficiaire store bId = some b) : bId ∈ univers store := by
  unfold fetchBeneficiaire at h
  by_cases hf : bId ∈ store.beneficiairesEnEchec
  · simp [hf] at h
  · simp only [hf, if_neg, if_false] at h
    have hmem := List.mem_of_find?_eq_some h
    have hpred := List.find?_some h
    have hid : b.id = bId := by simpa using hpred
    unfold univers
    apply List.mem_dedup.mpr
    apply List.mem_append.mpr
    left
    exact hid ▸ List.mem_map_of_mem Beneficiaire.id hmem

/-- Key step of the termination accounting: visiting a fetched, unvisited id
decreases the measure by exactly one. -/
theorem mesure_cons {store : Store} {bId : Nat} {visited : List Nat}
    (hmem : bId ∈ univers store) (hnot : bId ∉ visited) :
    mesure store (bId :: visited) + 1 = mesure store visited :=
  length_filter_not_mem_cons (List.nodup_dedup _) bId visited hmem hnot

/-! ## The chain builder satisfies the recurrence of the JS source -/

/-- `construireChaineRecursive` satisfies, as a fixed point, exactly the
recurrence written in `beneficiaires-chaine.js` (lines 169–269): stop when
the level reaches `profondeurMax` or the beneficiary is on the current path;
stop on a failed/absent beneficiary fetch; otherwise emit the node and
recurse into every nonzero, unvisited relation target with `niveau + 1` and
the extended path.  In particular the fuel of `construireChaineGo` never
runs out at the fuel chosen by the wrapper. -/
theorem construireChaineRecursive_eq (store : Store) (bId niveauActuel : Nat)
    (visited : List Nat) (profondeurMax : Profondeur)
    (lienFinancierParent : String) :
    construireChaineRecursive store bId niveauActuel visited profondeurMax
        lienFinancierParent =
      if profondeurAtteinte niveauActuel profondeurMax = true ∨ bId ∈ visited then []
      else
        match fetchBeneficiaire store bId with
        | none => []
        | some beneficiaire =>
          mkNode beneficiaire niveauActuel (relationsSortantes store bId)
              lienFinancierParent ::
            (relationsSortantes store bId).flatMap (fun relation =>
              if relation.cibleId ≠ 0 ∧ relation.cibleId ∉ bId :: visited then
                construireChaineRecursive store relation.cibleId
                  (niveauActuel + 1) (bId :: visited) profondeurMax
                  (lienOuDefaut relation.descriptionRelation
                    "Participation financière")
  
            else []) := by
  by_cases hguard : profondeurAtteinte niveauActuel profondeurMax = true ∨ bId ∈ visited
  · unfold construireChaineRecursive construireChaineGo
    rw [if_pos hguard, if_pos hguard]
  · have hnotv : bId ∉ visited := fun h => hguard (Or.inr h)
    unfold construireChaineRecursive
    rw [construireChaineGo]
    rw [if_neg hguard, if_neg hguard]
    cases hfetch : fetchBeneficiaire store bId with
    | none => rfl
    | some beneficiaire =>
      simp only []
      congr 1
      apply flatMap_congr
      intro rel _
      by_cases hc : rel.cibleId ≠ 0 ∧ rel.cibleId ∉ bId :: visited
      · rw [if_pos hc, if_pos hc,
          mesure_cons (fetch_mem_univers hfetch) hnotv]
      · rw [if_neg hc, if_neg hc]

/-- With a numeric `profondeurMax`, every node emitted by the chain builder
body lies in the half-open level window `[niveauActuel, profondeurMax)`. -/
theorem construireChaineGo_niveau_borne (store : Store) (d : Int) :
    ∀ (fuel bId niveauActuel : Nat) (visited : List Nat) (lien : String)
      (node : ChainNode),
      node ∈ construireChaineGo store fuel bId niveauActuel visited (.num d) lien →
      (niveauActuel : Int) ≤ (node.niveau : Int) ∧ (node.niveau : Int) < d := by
  intro fuel
  induction fuel with
  | zero =>
    intro bId niveau visited lien node h
    simp [construireChaineGo] at h
  | succ fuel ih =>
    intro bId niveau visited lien node h
    rw [construireChaineGo] at h
    by_cases hguard : profondeurAtteinte niveau (.num d) = true ∨ bId ∈ visited
    · rw [if_pos hguard] at h
      cases h
    · rw [if_neg hguard] at h
      have hniv : (niveau : Int) < d := by
        have : ¬ profondeurAtteinte niveau (.num d) = true :=
          fun hc => hguard (Or.inl hc)
        simpa [profondeurAtteinte] using this
      cases hfetch : fetchBeneficiaire store bId with
      | none => rw [hfetch] at h; cases h
      | some beneficiaire =>
        rw [hfetch] at h
        simp only [List.mem_cons] at h
        rcases h with hnode | hmem
        · subst hnode
          exact ⟨le_refl _, hniv⟩
        · rcases List.mem_flatMap.mp hmem with ⟨rel, _, hin⟩
          split at hin
          · have hrec := ih rel.cibleId (niveau + 1) (bId :: visited) _ node hin
            refine ⟨?_, hrec.2⟩
            have h1 := hrec.1
            omega
          · cases hin

/-- With `NaN` as depth bound, every emitted node's level is bounded by the
starting level plus the room left in the per-path visited set: the visited
sets alone bound the traversal. -/
theorem construireChaineGo_niveau_mesure (store : Store) :
    ∀ (fuel bId niveauActuel : Nat) (visited : List Nat) (pMax : Profondeur)
      (lien : String) (node : ChainNode),
      node ∈ construireChaineGo store fuel bId niveauActuel visited pMax lien →
      node.niveau ≤ niveauActuel + mesure store visited := by
  intro fuel
  induction fuel with
  | zero =>
    intro bId niveau visited pMax lien node h
    simp [construireChaineGo] at h
  | succ fuel ih =>
    intro bId niveau visited pMax lien node h
    rw [construireChaineGo] at h
    by_cases hguard : profondeurAtteinte niveau pMax = true ∨ bId ∈ visited
    · rw [if_pos hguard] at h
      cases h
    · rw [if_neg hguard] at h
      have hnotv : bId ∉ visited := fun hv => hguard (Or.inr hv)
      cases hfetch : fetchBeneficiaire store bId with
      | none => rw [hfetch] at h; cases h
      | some beneficiaire =>
        rw [hfetch] at h
        simp only [List.mem_cons] at h
        rcases h with hnode | hmem
        · subst hnode
          exact Nat.le_add_right _ _
        · rcases List.mem_flatMap.mp hmem with ⟨rel, _, hin⟩
          split at hin
          · have hrec := ih rel.cibleId (niveau + 1) (bId :: visited) pMax _ node hin
            have hm := mesure_cons (fetch_mem_univers hfetch) hnotv
            omega
          · cases hin

/-- A branch whose beneficiary fetch fails contributes nothing, whatever the
fuel, level, path or depth bound. -/
theorem construireChaineGo_echec {store : Store} {bId : Nat}
    (h : bId ∈ store.beneficiairesEnEchec) (fuel niveau : Nat)
    (visited : List Nat) (pMax : Profondeur) (lien : String) :
    construireChaineGo store fuel bId niveau visited pMax lien = [] := by
  cases fuel with
  | zero => rfl
  | succ fuel =>
    rw [construireChaineGo]
    by_cases hguard : profondeurAtteinte niveau pMax = true ∨ bId ∈ visited
    · rw [if_pos hguard]
    · rw [if_neg hguard]
      have : fetchBeneficiaire store bId = none := by
        unfold fetchBeneficiaire
        rw [if_pos h]
      rw [this]

/-- When the level guard already fires, the chain builder body returns the
empty list whatever the fuel. -/
theorem construireChaineGo_garde {niveau : Nat} {pMax : Profondeur}
    (h : profondeurAtteinte niveau pMax = true) (store : Store) (fuel bId : Nat)
    (visited : List Nat) (lien : String) :
    construireChaineGo store fuel bId niveau visited pMax lien = [] := by
  cases fuel with
  | zero => rfl
  | succ fuel =>
    rw [construireChaineGo, if_pos (Or.inl h)]

/-! ## The `filter`/`findIndex` deduplication idiom -/

/-- `find?` returns the element sitting at the index `findIdx` points to. -/
theorem find?_eq_of_findIdx {α : Type} (p : α → Bool) :
    ∀ (l : List α) (i : Nat), l.findIdx p = i → ∀ (hi : i < l.length),
      l.find? p = some (l.get ⟨i, hi⟩)
  | [], i, _, hi => absurd hi (by simp)
  | x :: xs, i, hidx, hi => by
    by_cases hp : p x
    · have h0 : i = 0 := by
        rw [List.findIdx_cons] at hidx
        simp [hp] at hidx
        omega
      subst h0
      rw [List.find?_cons_of_pos _ hp]
      rfl
    · rw [List.findIdx_cons] at hidx
      simp only [Bool.not_eq_true] at hp
      simp only [hp, cond_false] at hidx
      cases i with
      | zero => omega
      | succ j =>
        have hj : xs.findIdx p = j := by omega
        have hjl : j < xs.length := by
          simpa [Nat.succ_lt_succ_iff] using hi
        rw [List.find?_cons_of_neg _ (by simp [hp])]
        rw [find?_eq_of_findIdx p xs j hj hjl]
        rfl

/-- Every survivor of `dedupBy` is the first element of the original list
carrying its key. -/
theorem mem_dedupBy_first {α : Type} [DecidableEq α] {f : α → Nat}
    {l : List α} {n : α} (h : n ∈ dedupBy f l) :
    l.find? (fun x => f x == f n) = some n := by
  rcases List.mem_map.mp h with ⟨p, hp, hsnd⟩
  rcases List.mem_filter.mp hp with ⟨henum, hcond⟩
  have hidx : l.findIdx (fun x => f x == f p.2) = p.1 := by
    simpa using hcond
  have hget : l[p.1]? = some p.2 := List.mem_enum_iff_getElem?.mp henum
  have hi : p.1 < l.length := (List.getElem?_eq_some_iff.mp hget).1
  have hval : l.get ⟨p.1, hi⟩ = p.2 := by
    have := (List.getElem?_eq_some_iff.mp hget).2
    simpa [List.get_eq_getElem] using this
  subst hsnd
  rw [find?_eq_of_findIdx _ l p.1 hidx hi, hval]

/-- A survivor of `dedupBy` belongs to the original list. -/
theorem mem_of_mem_dedupBy {α : Type} [DecidableEq α] {f : α → Nat}
    {l : List α} {n : α} (h : n ∈ dedupBy f l) : n ∈ l :=
  List.mem_of_find?_eq_some (mem_dedupBy_first h)

/-- `dedupBy` keeps at most one element per key. -/
theorem dedupBy_pairwise {α : Type} [DecidableEq α] (f : α → Nat) (l : List α) :
    (dedupBy f l).Pairwise (fun a b => f a ≠ f b) := by
  have h1 : (l.enum).Pairwise (fun p q => p.1 < q.1) := by
    have hr : (l.enum.map Prod.fst).Pairwise (· < ·) := by
      rw [List.enum_map_fst]
      exact List.pairwise_lt_range _
    exact (List.pairwise_map.mp hr)
  have h2 : ((l.enum.filter
      (fun p => l.findIdx (fun x => f x == f p.2) == p.1))).Pairwise
      (fun p q => p.1 < q.1) := h1.sublist (List.filter_sublist _)
  unfold dedupBy
  apply List.pairwise_map.mpr
  refine h2.imp_of_mem ?_
  intro a b ha hb hlt heq
  have hca : l.findIdx (fun x => f x == f a.2) = a.1 := by
    simpa using (List.mem_filter.mp ha).2
  have hcb : l.findIdx (fun x => f x == f b.2) = b.1 := by
    simpa using (List.mem_filter.mp hb).2
  have hpred : (fun x => f x == f a.2) = (fun x => f x == f b.2) := by
    funext x
    rw [heq]
  rw [hpred, hcb] at hca
  omega

/-- Every key of the original list survives in `dedupBy`. -/
theorem dedupBy_couvre {α : Type} [DecidableEq α] (f : α → Nat) (l : List α)
    (x : α) (hx : x ∈ l) : ∃ n ∈ dedupBy f l, f n = f x := by
  have hex : ∃ y ∈ l, (f y == f x) = true := ⟨x, hx, by simp⟩
  have hi : l.findIdx (fun y => f y == f x) < l.length :=
    List.findIdx_lt_length_of_exists hex
  refine ⟨l.get ⟨l.findIdx (fun y => f y == f x), hi⟩, ?_, ?_⟩
  · have hkey : f (l.get ⟨l.findIdx (fun y => f y == f x), hi⟩) = f x := by
      have := List.findIdx_getElem (w := hi)
      simpa [List.get_eq_getElem] using this
    unfold dedupBy
    apply List.mem_map.mpr
    refine ⟨(l.findIdx (fun y => f y == f x),
      l.get ⟨l.findIdx (fun y => f y == f x), hi⟩), ?_, rfl⟩
    apply List.mem_filter.mpr
    constructor
    · exact List.mem_enum_iff_getElem?.mpr (by simp [List.getElem?_eq_getElem hi])
    · have hpred : (fun y => f y == f (l.get ⟨l.findIdx (fun y => f y == f x), hi⟩))
          = (fun y => f y == f x) := by
        funext y
        rw [hkey]
      simp only [hpred]
      simp
  · have := @List.findIdx_getElem _ _ _ hi
    simpa [List.get_eq_getElem] using this

/-! ## From the handler response back to the traversal -/

/-- The brand found by the handler's lookup carries the requested id. -/
theorem marque_id_of_find {store : Store} {marqueId : Nat} {marque : Marque}
    (h : store.marques.find? (fun m => m.id == marqueId) = some marque) :
    marque.id = marqueId := by
  simpa using List.find?_some h

/-- The enrichment pass does not touch a node's level. -/
theorem enrichirNode_niveau (store : Store) (m : Nat) (node : ChainNode) :
    (enrichirNode store m node).niveau = node.niveau := rfl

/-- The enrichment pass does not touch a node's beneficiary. -/
theorem enrichirNode_beneficiaire (store : Store) (m : Nat) (node : ChainNode) :
    (enrichirNode store m node).beneficiaire = node.beneficiaire := rfl

/-- Every node of a handler response is the enrichment of a node of the
deduplicated chain. -/
theorem chaineDe_mem_enrichir {store : Store}
    {collate : String → String → Int} {marqueId : Nat} {pMax : Profondeur}
    {node : ChainNode}
    (h : node ∈ (chaineHandler store collate marqueId pMax).chaineDe) :
    ∃ x ∈ chaineUnique store marqueId pMax,
      node = enrichirNode store marqueId x := by
  unfold chaineHandler at h
  cases hfind : store.marques.find? (fun m => m.id == marqueId) with
  | none =>
    rw [hfind] at h
    cases h
  | some marque =>
    rw [hfind] at h
    by_cases hemp : (liaisonsDeMarque store marqueId).isEmpty
    · simp [hemp, Reponse.chaineDe] at h
    · simp only [hemp, if_false, Reponse.chaineDe, Bool.false_eq_true] at h
      rcases List.mem_map.mp h with ⟨x, hx, hen⟩
      have hxu : x ∈ chaineUnique store marqueId pMax :=
        ((List.perm_insertionSort _ _).mem_iff).mp hx
      have hid := marque_id_of_find hfind
      exact ⟨x, hxu, by rw [← hen, hid]⟩

/-- Every node of the merged chain respects the numeric depth window. -/
theorem chaineFusionnee_niveau_borne {store : Store} {marqueId : Nat}
    {d : Int} {node : ChainNode}
    (h : node ∈ chaineFusionnee store marqueId (.num d)) :
    (0 : Int) ≤ (node.niveau : Int) ∧ (node.niveau : Int) < d := by
  unfold chaineFusionnee at h
  rcases List.mem_flatMap.mp h with ⟨li, _, hin⟩
  split at hin
  · unfold construireChaineRecursive at hin
    have := construireChaineGo_niveau_borne store d _ _ _ _ _ node hin
    exact ⟨by omega, this.2⟩
  · cases hin

/-- **C1.** For every store, brand id and numeric `maxDepth` `d` — cyclic
`BeneficiaryRelation` graphs included — the chain endpoint (whose traversal
`construireChaineRecursive` is a total function, so it terminates) emits no
chain node whose level is `≥ d`: the response holds at most `d` levels,
numbered `0 … d-1`. -/
theorem chaine_respecte_profondeur (store : Store)
    (collate : String → String → Int) (marqueId : Nat) (d : Int)
    (node : ChainNode)
    (h : node ∈ (chaineHandler store collate marqueId (.num d)).chaineDe) :
    (node.niveau : Int) < d := by
  rcases chaineDe_mem_enrichir h with ⟨x, hx, hnode⟩
  have hf : x ∈ chaineFusionnee store marqueId (.num d) := mem_of_mem_dedupBy hx
  have hb := chaineFusionnee_niveau_borne hf
  rw [hnode, enrichirNode_niveau]
  exact hb.2

/-- Witness for `chaine_respecte_profondeur` on the cyclic store
`A → B → A` with `maxDepth = 2`. -/
theorem chaine_respecte_profondeur_temoin :
    ((nodeDansChaine (chaineHandler exStoreCycle collateStd 1 (.num 2)).chaineDe
      2).niveau : Int) < 2 :=
  chaine_respecte_profondeur exStoreCycle collateStd 1 2 _ (by decide)

/-- **C10.** With a `NaN` depth bound (a `depth` query parameter that does
not parse), the level guard `niveau >= profondeurMax` never fires, and the
traversal — still a total function — is bounded by the per-path visited
sets alone: every emitted node's level is at most the number of distinct
ids the visited set can absorb. -/
theorem chaine_nan_terminaison (store : Store) (bId : Nat) (lien : String)
    (node : ChainNode)
    (h : node ∈ construireChaineRecursive store bId 0 [] .nan lien) :
    (∀ niveau : Nat, profondeurAtteinte niveau .nan = false) ∧
      node.niveau ≤ mesure store [] := by
  refine ⟨fun _ => rfl, ?_⟩
  unfold construireChaineRecursive at h
  simpa using construireChaineGo_niveau_mesure store _ bId 0 [] .nan lien node h

/-- Witness for `chaine_nan_terminaison` on the cyclic store: the node of
beneficiary `2`, reached at level 1 with no depth bound, respects the
visited-set bound. -/
theorem chaine_nan_terminaison_temoin :
    (nodeDansChaine
        (construireChaineRecursive exStoreCycle 1 0 [] .nan "participation")
        2).niveau ≤ mesure exStoreCycle [] :=
  (chaine_nan_terminaison exStoreCycle 1 "participation" _ (by decide)).2

/-- A successful fetch returns the record with the requested id. -/
theorem fetch_id {store : Store} {bId : Nat} {b : Beneficiaire}
    (h : fetchBeneficiaire store bId = some b) : b.id = bId := by
  unfold fetchBeneficiaire at h
  split at h
  · cases h
  · simpa using List.find?_some h

/-- **C7.** A store fetch failure for one beneficiary only cuts that branch:
the traversal of the failing beneficiary returns an empty continuation
(wherever it is entered, so the merge keeps every other branch), and the
handler still answers with a 200 response whenever the brand exists — a
traversal-level failure never turns into an error response. -/
theorem echec_branche_coupee (store : Store) (f : Nat)
    (hf : f ∈ store.beneficiairesEnEchec) :
    (∀ (niveau : Nat) (visited : List Nat) (pMax : Profondeur) (lien : String),
       construireChaineRecursive store f niveau visited pMax lien = []) ∧
    (∀ (collate : String → String → Int) (marqueId : Nat) (pMax : Profondeur)
       (marque : Marque),
       store.marques.find? (fun m => m.id == marqueId) = some marque →
       ∃ r : Resultat, chaineHandler store collate marqueId pMax = .ok r) := by
  constructor
  · intro niveau visited pMax lien
    unfold construireChaineRecursive
    exact construireChaineGo_echec hf _ _ _ _ _
  · intro collate marqueId pMax marque hfind
    unfold chaineHandler
    rw [hfind]
    by_cases hemp : (liaisonsDeMarque store marqueId).isEmpty
    · simp only [hemp, if_true]
      exact ⟨_, rfl⟩
    · simp only [hemp, if_false, Bool.false_eq_true]
      exact ⟨_, rfl⟩

/-- Witness for `echec_branche_coupee`: in `exStoreEchec` the fetch of
beneficiary `1` fails and its branch is empty. -/
theorem echec_branche_coupee_temoin :
    construireChaineRecursive exStoreEchec 1 0 [] (.num 5) "lien A" = [] :=
  (echec_branche_coupee exStoreEchec 1 (by decide)).1 0 [] (.num 5) "lien A"

/-- **C8.** A brand that exists but has no `Marque_beneficiaire` link gets a
200 response with an empty chain and `profondeur_max = 0`, not an error. -/
theorem marque_sans_liaison_chaine_vide (store : Store)
    (collate : String → String → Int) (marqueId : Nat) (pMax : Profondeur)
    (marque : Marque)
    (hfind : store.marques.find? (fun m => m.id == marqueId) = some marque)
    (hvide : liaisonsDeMarque store marqueId = []) :
    chaineHandler store collate marqueId pMax =
      .ok { marque_nom := marque.nom, marque_id := marque.id,
            chaine := [], profondeur_max := 0 } := by
  unfold chaineHandler
  rw [hfind]
  simp [hvide]

/-- Witness for `marque_sans_liaison_chaine_vide` on `exStoreSansLiaison`. -/
theorem marque_sans_liaison_chaine_vide_temoin :
    chaineHandler exStoreSansLiaison collateStd 1 (.num 5) =
      .ok { marque_nom := "M", marque_id := 1, chaine := [],
            profondeur_max := 0 } :=
  marque_sans_liaison_chaine_vide exStoreSansLiaison collateStd 1 (.num 5)
    ⟨1, "M"⟩ (by decide) (by decide)

/-- Counterexample to **C4** as stated: in `exStoreSimple`, brand `1` has a
`BrandBeneficiaryLink` to the perfectly fetchable beneficiary `1`, yet the
`maxDepth = 0` request returns an *empty* chain (the guard
`niveau >= profondeurMax` fires at level 0 before any node is emitted), not
the directly-linked beneficiaries. -/
theorem profondeur_zero_contre_exemple :
    liaisonsDeMarque exStoreSimple 1 = [⟨1, 1, "lien direct"⟩] ∧
    (fetchBeneficiaire exStoreSimple 1).isSome = true ∧
    (chaineHandler exStoreSimple collateStd 1 (.num 0)).chaineDe = [] := by
  decide

/-- With `maxDepth = 1`, a depth-0 traversal emits exactly the fetched
direct beneficiary and recurses nowhere. -/
theorem construireChaine_profondeur_un (store : Store) (bId : Nat)
    (lien : String) :
    construireChaineRecursive store bId 0 [] (.num 1) lien =
      match fetchBeneficiaire store bId with
      | none => []
      | some b => [mkNode b 0 (relationsSortantes store bId) lien] := by
  rw [construireChaineRecursive_eq]
  rw [if_neg (by simp [profondeurAtteinte])]
  cases hfetch : fetchBeneficiaire store bId with
  | none => rfl
  | some b =>
    simp only []
    congr 1
    have hvide : ∀ rel ∈ relationsSortantes store bId,
        (if rel.cibleId ≠ 0 ∧ rel.cibleId ∉ bId :: ([] : List Nat) then
          construireChaineRecursive store rel.cibleId (0 + 1) (bId :: [])
            (.num 1)
            (lienOuDefaut rel.descriptionRelation "Participation financière")
        else []) = [] := by
      intro rel _
      split
      · unfold construireChaineRecursive
        exact construireChaineGo_garde (by decide) store _ _ _ _
      · rfl
    rw [flatMap_congr hvide]
    simp

/-- Deduplicated chain nodes re-enter the response once enriched. -/
theorem enrichir_mem_chaineDe {store : Store}
    {collate : String → String → Int} {marqueId : Nat} {pMax : Profondeur}
    {marque : Marque}
    (hfind : store.marques.find? (fun m => m.id == marqueId) = some marque)
    {n : ChainNode} (hn : n ∈ chaineUnique store marqueId pMax)
    (hnemp : (liaisonsDeMarque store marqueId).isEmpty = false) :
    enrichirNode store marqueId n ∈
      (chaineHandler store collate marqueId pMax).chaineDe := by
  unfold chaineHandler
  rw [hfind]
  simp only [hnemp, if_false, Bool.false_eq_true, Reponse.chaineDe]
  have hid := marque_id_of_find hfind
  rw [hid]
  unfold enrichirAvecMarquesLiees
  exact List.mem_map.mpr ⟨n, ((List.perm_insertionSort _ _).mem_iff).mpr hn, rfl⟩

/-- **C4 amended.** A request with `maxDepth = 0` returns an *empty* chain
(the guard fires at level 0); the claimed behaviour — exactly the
directly-linked beneficiaries, no recursive expansion — is what
`maxDepth = 1` produces: every returned node is a level-0 node of one of the
brand's links, and every link with a nonzero, fetchable beneficiary id
contributes its node. -/
theorem profondeur_zero_vide_et_un_directs (store : Store)
    (collate : String → String → Int) (marqueId : Nat) :
    ((chaineHandler store collate marqueId (.num 0)).chaineDe = []) ∧
    (∀ node ∈ (chaineHandler store collate marqueId (.num 1)).chaineDe,
      node.niveau = 0 ∧
        ∃ li ∈ liaisonsDeMarque store marqueId,
          node.beneficiaire.id = li.beneficiaireId) ∧
    (∀ marque : Marque,
      store.marques.find? (fun m => m.id == marqueId) = some marque →
      ∀ li ∈ liaisonsDeMarque store marqueId, li.beneficiaireId ≠ 0 →
      ∀ b : Beneficiaire, fetchBeneficiaire store li.beneficiaireId = some b →
      ∃ node ∈ (chaineHandler store collate marqueId (.num 1)).chaineDe,
        node.beneficiaire.id = li.beneficiaireId) := by
  refine ⟨?_, ?_, ?_⟩
  · apply List.eq_nil_iff_forall_not_mem.mpr
    intro node h
    rcases chaineDe_mem_enrichir h with ⟨x, hx, _⟩
    have hb := chaineFusionnee_niveau_borne (mem_of_mem_dedupBy hx)
    omega
  · intro node hnode
    rcases chaineDe_mem_enrichir hnode with ⟨x, hx, hen⟩
    have hxf := mem_of_mem_dedupBy hx
    unfold chaineFusionnee at hxf
    rcases List.mem_flatMap.mp hxf with ⟨li, hli, hin⟩
    split at hin
    · rw [construireChaine_profondeur_un] at hin
      cases hfetch : fetchBeneficiaire store li.beneficiaireId with
      | none => rw [hfetch] at hin; cases hin
      | some b =>
        rw [hfetch] at hin
        have hx1 := List.mem_singleton.mp hin
        subst hen
        constructor
        · rw [enrichirNode_niveau, hx1]
          rfl
        · refine ⟨li, hli, ?_⟩
          rw [enrichirNode_beneficiaire, hx1]
          exact fetch_id hfetch
    · cases hin
  · intro marque hfind li hli hne b hfetch
    have hmem : mkNode b 0 (relationsSortantes store li.beneficiaireId)
        (lienOuDefaut li.lienFinancier "Lien financier direct") ∈
        chaineFusionnee store marqueId (.num 1) := by
      unfold chaineFusionnee
      apply List.mem_flatMap.mpr
      refine ⟨li, hli, ?_⟩
      rw [if_pos hne, construireChaine_profondeur_un, hfetch]
      simp
    rcases dedupBy_couvre (fun n => n.beneficiaire.id) _ _ hmem with ⟨n, hn, hid⟩
    have hnemp : (liaisonsDeMarque store marqueId).isEmpty = false := by
      have hne2 : liaisonsDeMarque store marqueId ≠ [] := List.ne_nil_of_mem hli
      simpa [List.isEmpty_iff] using hne2
    refine ⟨enrichirNode store marqueId n,
      enrichir_mem_chaineDe hfind hn hnemp, ?_⟩
    rw [enrichirNode_beneficiaire]
    rw [hid]
    exact fetch_id hfetch

/-- Witness for `profondeur_zero_vide_et_un_directs`: on `exStoreSimple`,
`maxDepth = 0` yields the empty chain. -/
theorem profondeur_zero_vide_et_un_directs_temoin :
    (chaineHandler exStoreSimple collateStd 1 (.num 0)).chaineDe = [] :=
  (profondeur_zero_vide_et_un_directs exStoreSimple collateStd 1).1

/-- Everything in `assocSet l k v` is an old binding or carries the new
value. -/
theorem mem_assocSet {l : List (String × List Marque)} {k : String}
    {v : List Marque} {kv : String × List Marque} (h : kv ∈ assocSet l k v) :
    kv ∈ l ∨ kv.2 = v := by
  unfold assocSet at h
  split at h
  · rcases List.mem_map.mp h with ⟨kv0, hkv0, heq⟩
    by_cases hk : (kv0.1 == k) = true
    · rw [if_pos hk] at heq
      right
      rw [← heq]
    · rw [if_neg hk] at heq
      left
      rw [← heq]
      exact hkv0
  · rcases List.mem_append.mp h with h | h
    · left
      exact h
    · right
      have := List.mem_singleton.mp h
      rw [this]

/-- Every group built by the one-hop enrichment excludes the requesting
brand. -/
theorem marquesIndirectesUnSaut_exclut (store : Store) (bId mid : Nat) :
    ∀ kv ∈ marquesIndirectesUnSaut store bId mid, ∀ m ∈ kv.2, m.id ≠ mid := by
  unfold marquesIndirectesUnSaut
  refine @foldl_preserve Relation (List (String × List Marque))
    (fun acc => ∀ kv ∈ acc, ∀ m ∈ kv.2, m.id ≠ mid) _ ?_
    (relationsEntrantes store bId) [] ?_
  · intro acc rel hacc
    dsimp only
    split
    · exact hacc
    · split
      · exact hacc
      · intro kv hkv m hm
        rcases mem_assocSet hkv with hold | hnew
        · exact hacc kv hold m hm
        · rw [hnew] at hm
          have := List.mem_filter.mp hm
          simpa using this.2
  · intro kv hkv
    cases hkv

/-- **C5.** In every chain-endpoint response, the brand that seeded the
request appears neither in any node's `marques_directes` nor in any group of
any node's `marques_indirectes`. -/
theorem exclusion_marque_requete (store : Store)
    (collate : String → String → Int) (marqueId : Nat) (pMax : Profondeur)
    (node : ChainNode)
    (hnode : node ∈ (chaineHandler store collate marqueId pMax).chaineDe) :
    (∀ m ∈ node.marques_directes, m.id ≠ marqueId) ∧
      (∀ kv ∈ node.marques_indirectes, ∀ m ∈ kv.2, m.id ≠ marqueId) := by
  rcases chaineDe_mem_enrichir hnode with ⟨x, _, hen⟩
  subst hen
  constructor
  · intro m hm
    have hm2 : m ∈ (marquesDuBeneficiaire store x.beneficiaire.id).filter
        (fun m => m.id ≠ marqueId) := hm
    have := List.mem_filter.mp hm2
    simpa using this.2
  · intro kv hkv m hm
    have hkv2 : kv ∈ marquesIndirectesUnSaut store x.beneficiaire.id marqueId := hkv
    exact marquesIndirectesUnSaut_exclut store _ _ kv hkv2 m hm

/-- Witness for `exclusion_marque_requete`: in the spec-example store, the
brand `KitKat` sits in the Nestlé node's `marques_directes` and indeed is
not the requesting brand `1`. -/
theorem exclusion_marque_requete_temoin : (⟨3, "KitKat"⟩ : Marque).id ≠ 1 :=
  (exclusion_marque_requete exStoreSpec collateStd 1 (.num 5)
      (nodeDansChaine (chaineHandler exStoreSpec collateStd 1 (.num 5)).chaineDe
        11)
      (by decide)).1 ⟨3, "KitKat"⟩ (by decide)

/-- Counterexample to **C3** as stated: in `exStoreDiamant` the node kept
for beneficiary `3` is its first-discovered occurrence, which sits at level
2, while a later occurrence of the same beneficiary sits at level 1 — the
traversal is depth-first, not level-ordered, so "first-discovered level"
is *not* the minimum level. -/
theorem dedup_niveau_minimal_contre_exemple :
    ¬ (∀ n ∈ chaineUnique exStoreDiamant 1 (.num 5),
        ∀ x ∈ chaineFusionnee exStoreDiamant 1 (.num 5),
          x.beneficiaire.id = n.beneficiaire.id → n.niveau ≤ x.niveau) := by
  decide

/-- **C3 amended.** After the merge-and-deduplicate step each beneficiary id
appears at most once, and the node kept for an id is the *first occurrence*
of that id in the merged, DFS-pre-ordered list (which need not be its
minimum level); every id of the merged list keeps exactly one
representative. -/
theorem dedup_premiere_occurrence (store : Store) (marqueId : Nat)
    (pMax : Profondeur) :
    ((chaineUnique store marqueId pMax).Pairwise
      (fun a b => a.beneficiaire.id ≠ b.beneficiaire.id)) ∧
    (∀ n ∈ chaineUnique store marqueId pMax,
      (chaineFusionnee store marqueId pMax).find?
        (fun x => x.beneficiaire.id == n.beneficiaire.id) = some n) ∧
    (∀ x ∈ chaineFusionnee store marqueId pMax,
      ∃ n ∈ chaineUnique store marqueId pMax,
        n.beneficiaire.id = x.beneficiaire.id) :=
  ⟨dedupBy_pairwise _ _, fun _ hn => mem_dedupBy_first hn,
    fun x hx => dedupBy_couvre _ _ x hx⟩

/-- Witness for `dedup_premiere_occurrence`: the node kept for beneficiary
`3` of `exStoreDiamant` is the first occurrence of that id in the merged
list. -/
theorem dedup_premiere_occurrence_temoin :
    (chaineFusionnee exStoreDiamant 1 (.num 5)).find?
      (fun x => x.beneficiaire.id ==
        (nodeDansChaine (chaineUnique exStoreDiamant 1 (.num 5))
          3).beneficiaire.id) =
      some (nodeDansChaine (chaineUnique exStoreDiamant 1 (.num 5)) 3) :=
  (dedup_premiere_occurrence exStoreDiamant 1 (.num 5)).2.1 _ (by decide)

/-- **C2** (evidence of the divergence).  On the spec's running example —
`Maybelline`/`Garnier` → `LOreal` → `Nestle` → `BlackRock`, `KitKat` →
`Nestle` — the chain endpoint's own enrichment attaches to the BlackRock
node only the one-hop group `"Nestle"`, while the transitive brand resolver
of `marquesTransitives.js` (documented there as used by this very endpoint
to fix this very bug) also returns the composite group `"Nestle → LOreal"`
with L'Oréal's remaining brand `Garnier`. -/
theorem enrichissement_un_saut_divergence :
    (nodeDansChaine (chaineHandler exStoreSpec collateStd 1 (.num 5)).chaineDe
        12).marques_indirectes = [("Nestle", [⟨3, "KitKat"⟩])] ∧
    (recupererToutesMarquesTransitives exStoreSpec 12 1 [] 5).marquesIndirectes =
      [("Nestle", [⟨3, "KitKat"⟩]), ("Nestle → LOreal", [⟨2, "Garnier"⟩])] := by
  decide

/-! ## The string comparison used for sorting keys and as witness collation -/

/-- Nothing is lexicographically below the empty character list. -/
theorem chaineLt_rien : ∀ a : List Char, chaineLt a [] = false
  | [] => rfl
  | _ :: _ => rfl

/-- `chaineLt` is irreflexive. -/
theorem chaineLt_irrefl : ∀ l : List Char, chaineLt l l = false
  | [] => rfl
  | c :: cs => by
    unfold chaineLt
    simp [chaineLt_irrefl cs]

/-- `chaineLt` is transitive. -/
theorem chaineLt_trans : ∀ a b c : List Char,
    chaineLt a b = true → chaineLt b c = true → chaineLt a c = true := by
  intro a
  induction a with
  | nil =>
    intro b c _ hbc
    cases c with
    | nil => rw [chaineLt_rien] at hbc; cases hbc
    | cons z zs => rfl
  | cons x xs ih =>
    intro b c hab hbc
    cases b with
    | nil => rw [chaineLt_rien] at hab; cases hab
    | cons y ys =>
      cases c with
      | nil => rw [chaineLt_rien] at hbc; cases hbc
      | cons z zs =>
        unfold chaineLt at hab hbc ⊢
        by_cases h1 : x.toNat < y.toNat
        · by_cases h2 : y.toNat < z.toNat
          · rw [if_pos (by omega)]
          · rw [if_neg h2] at hbc
            by_cases h3 : z.toNat < y.toNat
            · rw [if_pos h3] at hbc
              cases hbc
            · have hyz : y.toNat = z.toNat := by omega
              rw [if_pos (by omega)]
        · rw [if_neg h1] at hab
          by_cases h2 : y.toNat < x.toNat
          · rw [if_pos h2] at hab
            cases hab
          · have hxy : x.toNat = y.toNat := by omega
            rw [if_neg h2] at hab
            by_cases h3 : y.toNat < z.toNat
            · rw [if_pos (by omega)]
            · rw [if_neg h3] at hbc
              by_cases h4 : z.toNat < y.toNat
              · rw [if_pos h4] at hbc
                cases hbc
              · rw [if_neg h4] at hbc
                rw [if_neg (by omega), if_neg (by omega)]
                exact ih ys zs hab hbc

/-- Characters with equal code points are equal. -/
theorem char_toNat_inj {c d : Char} (h : c.toNat = d.toNat) : c = d := by
  apply Char.ext
  exact UInt32.toNat.inj h

/-- `chaineLt` is trichotomous. -/
theorem chaineLt_trichotomie : ∀ a b : List Char,
    chaineLt a b = true ∨ a = b ∨ chaineLt b a = true
  | [], [] => Or.inr (Or.inl rfl)
  | [], _ :: _ => Or.inl rfl
  | _ :: _, [] => Or.inr (Or.inr rfl)
  | x :: xs, y :: ys => by
    by_cases h1 : x.toNat < y.toNat
    · left
      unfold chaineLt
      rw [if_pos h1]
    · by_cases h2 : y.toNat < x.toNat
      · right; right
        unfold chaineLt
        rw [if_pos h2]
      · have hxy : x = y := char_toNat_inj (by omega)
        subst hxy
        rcases chaineLt_trichotomie xs ys with h | h | h
        · left
          unfold chaineLt
          rw [if_neg h1, if_neg h2]
          exact h
        · right; left
          rw [h]
        · right; right
          unfold chaineLt
          rw [if_neg h1, if_neg h2]
          exact h

/-- Strings with equal character data are equal. -/
theorem string_data_inj {a b : String} (h : a.data = b.data) : a = b := by
  cases a
  cases b
  congr 1

/-- `cleLe` is total. -/
theorem cleLe_total (a b : String) : cleLe a b ∨ cleLe b a := by
  unfold cleLe strLeB
  rcases chaineLt_trichotomie a.data b.data with h | h | h
  · left
    by_cases hba : chaineLt b.data a.data = true
    · have := chaineLt_trans _ _ _ h hba
      rw [chaineLt_irrefl] at this
      cases this
    · simp [Bool.not_eq_true] at hba
      simp [hba]
  · left
    rw [h, chaineLt_irrefl]
    rfl
  · right
    by_cases hab : chaineLt a.data b.data = true
    · have := chaineLt_trans _ _ _ h hab
      rw [chaineLt_irrefl] at this
      cases this
    · simp [Bool.not_eq_true] at hab
      simp [hab]

/-- `cleLe` is transitive. -/
theorem cleLe_trans (a b c : String) (hab : cleLe a b) (hbc : cleLe b c) :
    cleLe a c := by
  unfold cleLe strLeB at hab hbc ⊢
  by_cases hca : chaineLt c.data a.data = true
  · exfalso
    rcases chaineLt_trichotomie a.data b.data with h | h | h
    · have h2 := chaineLt_trans _ _ _ hca h
      rw [h2] at hbc
      cases hbc
    · rw [← h] at hbc
      rw [hca] at hbc
      cases hbc
    · rw [h] at hab
      cases hab
  · simp [Bool.not_eq_true] at hca
    simp [hca]

/-- `cleLe` is antisymmetric. -/
theorem cleLe_antisymm (a b : String) (hab : cleLe a b) (hba : cleLe b a) :
    a = b := by
  unfold cleLe strLeB at hab hba
  rcases chaineLt_trichotomie a.data b.data with h | h | h
  · rw [h] at hba
    cases hba
  · exact string_data_inj h
  · rw [h] at hab
    cases hab

/-- The sign test of the witness collation. -/
theorem collateStd_le_iff (a b : String) :
    collateStd a b ≤ 0 ↔ (a = b ∨ chaineLt a.data b.data = true) := by
  unfold collateStd
  split_ifs with h1 h2
  · simp [h1]
  · simp [h1, h2]
  · simp [h1, h2]

/-- `collateStd` is a transitive collation. -/
theorem collateStd_trans (a b c : String) (hab : collateStd a b ≤ 0)
    (hbc : collateStd b c ≤ 0) : collateStd a c ≤ 0 := by
  apply (collateStd_le_iff a c).mpr
  rcases (collateStd_le_iff a b).mp hab with h1 | h1
  · subst h1
    exact (collateStd_le_iff a c).mp hbc
  · rcases (collateStd_le_iff b c).mp hbc with h2 | h2
    · subst h2
      exact Or.inr h1
    · exact Or.inr (chaineLt_trans _ _ _ h1 h2)

/-- `collateStd` is a total collation. -/
theorem collateStd_total (a b : String) :
    collateStd a b ≤ 0 ∨ collateStd b a ≤ 0 := by
  rcases chaineLt_trichotomie a.data b.data with h | h | h
  · exact Or.inl ((collateStd_le_iff a b).mpr (Or.inr h))
  · exact Or.inl ((collateStd_le_iff a b).mpr (Or.inl (string_data_inj h)))
  · exact Or.inr ((collateStd_le_iff b a).mpr (Or.inr h))

/-- Totality of the sort comparator, from totality of the collation. -/
theorem nodeRel_total (collate : String → String → Int)
    (htotal : ∀ a b : String, collate a b ≤ 0 ∨ collate b a ≤ 0)
    (a b : ChainNode) : nodeRel collate a b ∨ nodeRel collate b a := by
  unfold nodeRel nodeLe
  by_cases h : a.niveau = b.niveau
  · rw [if_pos h, if_pos h.symm]
    rcases htotal a.beneficiaire.nom b.beneficiaire.nom with ht | ht
    · exact Or.inl (decide_eq_true ht)
    · exact Or.inr (decide_eq_true ht)
  · rw [if_neg h, if_neg (fun hh => h hh.symm)]
    by_cases hlt : a.niveau < b.niveau
    · exact Or.inl (decide_eq_true hlt)
    · exact Or.inr (decide_eq_true (by omega))

/-- Transitivity of the sort comparator, from transitivity of the
collation. -/
theorem nodeRel_trans (collate : String → String → Int)
    (htrans : ∀ a b c : String,
      collate a b ≤ 0 → collate b c ≤ 0 → collate a c ≤ 0)
    (a b c : ChainNode) (hab : nodeRel collate a b)
    (hbc : nodeRel collate b c) : nodeRel collate a c := by
  unfold nodeRel nodeLe at hab hbc ⊢
  by_cases h1 : a.niveau = b.niveau <;> by_cases h2 : b.niveau = c.niveau
  · rw [if_pos h1] at hab
    rw [if_pos h2] at hbc
    rw [if_pos (h1.trans h2)]
    exact decide_eq_true
      (htrans _ _ _ (of_decide_eq_true hab) (of_decide_eq_true hbc))
  · rw [if_pos h1] at hab
    rw [if_neg h2] at hbc
    have hlt := of_decide_eq_true hbc
    rw [if_neg (by omega)]
    exact decide_eq_true (by omega)
  · rw [if_neg h1] at hab
    rw [if_pos h2] at hbc
    have hlt := of_decide_eq_true hab
    rw [if_neg (by omega)]
    exact decide_eq_true (by omega)
  · rw [if_neg h1] at hab
    rw [if_neg h2] at hbc
    have hlt1 := of_decide_eq_true hab
    have hlt2 := of_decide_eq_true hbc
    rw [if_neg (by omega)]
    exact decide_eq_true (by omega)

/-- **C6.** For every request, the chain of the response is sorted by level
ascending, ties broken by beneficiary name ascending under the collation
(the model of `localeCompare`, assumed transitive and total as a collation
is); the enrichment pass preserves that order, so the property holds of
the final, enriched chain. -/
theorem chaine_triee (store : Store) (collate : String → String → Int)
    (marqueId : Nat) (pMax : Profondeur)
    (htrans : ∀ a b c : String,
      collate a b ≤ 0 → collate b c ≤ 0 → collate a c ≤ 0)
    (htotal : ∀ a b : String, collate a b ≤ 0 ∨ collate b a ≤ 0) :
    ((chaineHandler store collate marqueId pMax).chaineDe).Sorted
      (nodeRel collate) := by
  unfold chaineHandler
  cases hfind : store.marques.find? (fun m => m.id == marqueId) with
  | none => simp [Reponse.chaineDe]
  | some marque =>
    by_cases hemp : (liaisonsDeMarque store marqueId).isEmpty
    · simp [hemp, Reponse.chaineDe]
    · simp only [hemp, if_false, Bool.false_eq_true, Reponse.chaineDe]
      haveI ht1 : IsTotal ChainNode (nodeRel collate) :=
        ⟨nodeRel_total collate htotal⟩
      haveI ht2 : IsTrans ChainNode (nodeRel collate) :=
        ⟨nodeRel_trans collate htrans⟩
      have hs := List.sorted_insertionSort (nodeRel collate)
        (chaineUnique store marqueId pMax)
      unfold enrichirAvecMarquesLiees
      apply List.pairwise_map.mpr
      exact hs.imp (fun h => h)

/-- Witness for `chaine_triee`: the spec-example response is sorted under
the concrete collation `collateStd`. -/
theorem chaine_triee_temoin :
    ((chaineHandler exStoreSpec collateStd 1 (.num 5)).chaineDe).Sorted
      (nodeRel collateStd) :=
  chaine_triee exStoreSpec collateStd 1 (.num 5) collateStd_trans
    collateStd_total

/-! ## The transitive brand resolver satisfies the recurrence of the source -/

/-- `recupererToutesMarquesTransitives` satisfies, as a fixed point, exactly
the recurrence of `marquesTransitives.js` (lines 21–127): stop when the
beneficiary is on the current path or the visited set has reached
`profondeurMax`; otherwise collect the direct brands (requesting brand
excluded), fold over the incoming relations — skipping null or visited
sources — merging each source's direct brands under the source's name and
each of its groups under the composite `"source → label"` key, and finally
deduplicate every group.  The fuel of `recupererMarquesTransitivesGo` never
runs out at the fuel chosen by the wrapper. -/
theorem recupererToutesMarquesTransitives_eq (store : Store)
    (bId marqueActuelleId : Nat) (visited : List Nat) (profondeurMax : Nat) :
    recupererToutesMarquesTransitives store bId marqueActuelleId visited
        profondeurMax =
      if bId ∈ visited ∨ profondeurMax ≤ visited.length then
        { marquesDirectes := [], marquesIndirectes := [] }
      else
        let marquesDirectes :=
          (marquesDuBeneficiaire store bId).filter
            (fun m => m.id ≠ marqueActuelleId)
        let rels := relationsEntrantes store bId
        let marquesIndirectes :=
          rels.foldl
            (fun acc relation =>
              if relation.sourceId = 0 ∨ relation.sourceId ∈ bId :: visited then
                acc
              else
                let marquesSource :=
                  recupererToutesMarquesTransitives store relation.sourceId
                    marqueActuelleId (bId :: visited) profondeurMax
                let nomSource := nomBeneficiaire store relation.sourceId
                let acc1 :=
                  if marquesSource.marquesDirectes.isEmpty then acc
                  else assocAppend acc nomSource marquesSource.marquesDirectes
                marquesSource.marquesIndirectes.foldl
                  (fun acc2 kv =>
                    if kv.2.isEmpty then acc2
                    else assocSet acc2 (nomSource ++ " → " ++ kv.1) kv.2)
                  acc1)
            []
        { marquesDirectes := marquesDirectes
          marquesIndirectes :=
            if rels.isEmpty then marquesIndirectes
            else marquesIndirectes.map (fun kv => (kv.1, dedupMarques kv.2)) } := by
  by_cases hguard : bId ∈ visited ∨ profondeurMax ≤ visited.length
  · rw [if_pos hguard]
    unfold recupererToutesMarquesTransitives
    cases hfuel : profondeurMax + 1 - visited.length with
    | zero => rfl
    | succ f =>
      rw [recupererMarquesTransitivesGo, if_pos hguard]
  · rw [if_neg hguard]
    unfold recupererToutesMarquesTransitives
    obtain ⟨f, hf⟩ : ∃ f, profondeurMax + 1 - visited.length = f + 1 :=
      ⟨profondeurMax - visited.length, by omega⟩
    rw [hf, recupererMarquesTransitivesGo, if_neg hguard]
    have hfc : f = profondeurMax + 1 - (bId :: visited).length := by
      simp only [List.length_cons]
      omega
    rw [hfc]

/-! ## Cache: order-independent keys and get-after-set -/

/-- Replacing in place the binding of a present key makes `find?` return the
new binding. -/
theorem find?_map_replace {α : Type} :
    ∀ (cache : List (String × CacheEntry α)) (k : String) (e : CacheEntry α),
      cache.any (fun kv => kv.1 == k) = true →
      ((cache.map (fun kv => if kv.1 == k then (kv.1, e) else kv)).find?
        (fun kv => kv.1 == k)) = some (k, e)
  | [], k, e, h => by cases h
  | kv0 :: rest, k, e, h => by
    rw [List.map_cons]
    by_cases hk : (kv0.1 == k) = true
    · rw [if_pos hk]
      rw [List.find?_cons_of_pos _ (by simpa using hk)]
      have : kv0.1 = k := by simpa using hk
      rw [this]
    · rw [if_neg hk]
      rw [List.find?_cons_of_neg _ (by simpa using hk)]
      apply find?_map_replace rest k e
      have := List.any_eq_true.mp h
      rcases this with ⟨kv1, hkv1, hp⟩
      rcases List.mem_cons.mp hkv1 with h1 | h1
      · rw [h1] at hp
        exact absurd hp hk
      · exact List.any_eq_true.mpr ⟨kv1, h1, hp⟩

/-- After `Map.set`, looking the key up finds the fresh entry. -/
theorem find?_mapSet {α : Type} (cache : List (String × CacheEntry α))
    (k : String) (e : CacheEntry α) :
    (mapSet cache k e).find? (fun kv => kv.1 == k) = some (k, e) := by
  unfold mapSet
  split
  · apply find?_map_replace
    assumption
  · rename_i hany
    have hnone : cache.find? (fun kv => kv.1 == k) = none := by
      apply List.find?_eq_none.mpr
      intro kv hkv
      have := List.any_eq_false.mp (Bool.not_eq_true _ ▸ hany) kv hkv
      · simpa using this
    rw [List.find?_append, hnone]
    simp

/-- A `find?` hit surviving a filter is still the first hit after the
filter. -/
theorem find?_filter_of_pred {α : Type} {p q : α → Bool} :
    ∀ {l : List α} {a : α}, l.find? p = some a → q a = true →
      (l.filter q).find? p = some a := by
  intro l
  induction l with
  | nil =>
    intro a h _
    cases h
  | cons x xs ih =>
    intro a h hq
    by_cases hp : (p x) = true
    · rw [List.find?_cons_of_pos _ hp] at h
      have hax : x = a := by simpa using h
      subst hax
      rw [List.filter_cons, if_pos hq, List.find?_cons_of_pos _ hp]
    · rw [List.find?_cons_of_neg _ hp] at h
      rw [List.filter_cons]
      split
      · rw [List.find?_cons_of_neg _ hp]
        exact ih h hq
      · exact ih h hq

/-- With duplicate-free keys, `find?` by key is invariant under permutation
of the bindings. -/
theorem find?_perm_nodup {p1 p2 : List (String × String)} (hperm : p1.Perm p2)
    (hnd : (p1.map Prod.fst).Nodup) (k : String) :
    p1.find? (fun kv => kv.1 == k) = p2.find? (fun kv => kv.1 == k) := by
  cases h1 : p1.find? (fun kv => kv.1 == k) with
  | none =>
    have hall := List.find?_eq_none.mp h1
    have : ∀ kv ∈ p2, ¬((fun kv => kv.1 == k) kv = true) := fun kv hkv =>
      hall kv (hperm.mem_iff.mpr hkv)
    exact (List.find?_eq_none.mpr this).symm
  | some a =>
    have ha := List.find?_some h1
    have hamem := List.mem_of_find?_eq_some h1
    cases h2 : p2.find? (fun kv => kv.1 == k) with
    | none =>
      exact absurd ha (List.find?_eq_none.mp h2 a (hperm.mem_iff.mp hamem))
    | some b =>
      have hb := List.find?_some h2
      have hbmem : b ∈ p1 :=
        hperm.mem_iff.mpr (List.mem_of_find?_eq_some h2)
      have hab : a = b := by
        apply List.inj_on_of_nodup_map hnd hamem hbmem
        have h1' : a.1 = k := by simpa using ha
        have h2' : b.1 = k := by simpa using hb
        rw [h1', h2']
      rw [hab]

/-- `generateKey` is insensitive to the insertion order of the `params`
object: two objects denoting the same finite mapping produce the same
cache key. -/
theorem generateKey_perm (endpoint : String) {p1 p2 : List (String × String)}
    (hperm : p1.Perm p2) (hnd : (p1.map Prod.fst).Nodup) :
    generateKey endpoint p1 = generateKey endpoint p2 := by
  unfold generateKey
  haveI ht1 : IsTotal String cleLe := ⟨cleLe_total⟩
  haveI ht2 : IsTrans String cleLe := ⟨cleLe_trans⟩
  haveI ht3 : IsAntisymm String cleLe := ⟨cleLe_antisymm⟩
  have hk : List.insertionSort cleLe (p1.map Prod.fst) =
      List.insertionSort cleLe (p2.map Prod.fst) := by
    have hp12 : List.Perm (List.insertionSort cleLe (p1.map Prod.fst))
        (List.insertionSort cleLe (p2.map Prod.fst)) :=
      ((List.perm_insertionSort cleLe _).trans (hperm.map Prod.fst)).trans
        (List.perm_insertionSort cleLe _).symm
    exact List.eq_of_perm_of_sorted hp12 (List.sorted_insertionSort _ _)
      (List.sorted_insertionSort _ _)
  have hv : ∀ k, paramValeur p1 k = paramValeur p2 k := by
    intro k
    unfold paramValeur
    rw [find?_perm_nodup hperm hnd k]
  have hfun : (fun k => k ++ ":" ++ paramValeur p1 k) =
      (fun k => k ++ ":" ++ paramValeur p2 k) := by
    funext k
    rw [hv k]
  rw [hk, hfun]

/-- Every TTL of the table (and the default) is positive. -/
theorem ttlFor_pos (endpoint : String) : 0 < ttlFor endpoint := by
  unfold ttlFor
  cases h : ttlTable.find? (fun kv => kv.1 == endpoint) with
  | none => simp
  | some kv =>
    have hmem := List.mem_of_find?_eq_some h
    have : ∀ kv ∈ ttlTable, 0 < kv.2 := by decide
    simpa using this kv hmem

/-- After a `set`, looking up the written key finds exactly the fresh
entry, whatever cleanup ran. -/
theorem set_find? {α : Type} (c : ServerlessCache α) (endpoint : String)
    (v : α) (p1 : List (String × String)) (now : Nat) :
    ((c.set endpoint v p1 now).cache).find?
        (fun kv => kv.1 == generateKey endpoint p1) =
      some (generateKey endpoint p1,
        { data := v, timestamp := now, endpoint := endpoint, params := p1,
          accessCount := 1 }) := by
  unfold ServerlessCache.set performCleanupIfNeeded
  dsimp only
  split
  · split
    · dsimp only
      exact find?_mapSet _ _ _
    · dsimp only
      apply find?_filter_of_pred (find?_mapSet _ _ _)
      show decide (¬ (ttlFor endpoint < now - now)) = true
      exact decide_eq_true (by omega)
  · split
    · dsimp only
      exact find?_mapSet _ _ _
    · dsimp only
      apply find?_filter_of_pred (find?_mapSet _ _ _)
      show decide (¬ (ttlFor endpoint < now - now)) = true
      exact decide_eq_true (by omega)

/-- A fresh-enough `find?` hit is what `get` returns. -/
theorem get_of_find? {α : Type} (c : ServerlessCache α) (endpoint : String)
    (params : List (String × String)) (now2 : Nat)
    (kv : String × CacheEntry α)
    (hf : c.cache.find? (fun x => x.1 == generateKey endpoint params) =
      some kv)
    (hfresh : ¬ (ttlFor endpoint < now2 - kv.2.timestamp)) :
    (c.get endpoint params now2).1 = some kv.2.data := by
  unfold ServerlessCache.get
  dsimp only
  rw [hf]
  dsimp only
  rw [if_neg hfresh]

/-- **C9.** For every cache state, namespace and value, a `set` with one
`params` object is observed by a `get` with any reordering of the same
key→value mapping, performed within the namespace's TTL window: the two
objects canonicalize to the same cache key. -/
theorem cache_cle_independante_ordre {α : Type} (c : ServerlessCache α)
    (endpoint : String) (v : α) (p1 p2 : List (String × String))
    (now now2 : Nat) (hperm : p1.Perm p2)
    (hnd : (p1.map Prod.fst).Nodup)
    (httl : now2 - now ≤ ttlFor endpoint) :
    ((c.set endpoint v p1 now).get endpoint p2 now2).1 = some v := by
  have hkey := generateKey_perm endpoint hperm hnd
  have hA := set_find? c endpoint v p1 now
  have hres := get_of_find? (c.set endpoint v p1 now) endpoint p2 now2 _
    (by rw [← hkey]; exact hA) (by dsimp only; omega)
  exact hres

/-- Witness for `cache_cle_independante_ordre`: a pair of permuted `params`
objects round-trips through the `marques` cache. -/
theorem cache_cle_independante_ordre_temoin :
    (((createServerlessCache Nat "marques" 0).set "marques_search" 7
        [("search", "nutella"), ("limit", "10")] 1000).get "marques_search"
        [("limit", "10"), ("search", "nutella")] 2000).1 = some 7 :=
  cache_cle_independante_ordre (createServerlessCache Nat "marques" 0)
    "marques_search" 7 [("search", "nutella"), ("limit", "10")]
    [("limit", "10"), ("search", "nutella")] 1000 2000 (by decide) (by decide)
    (by decide)
